import Mathlib

/-!
Verification development for the split-apply-combine ("groupby") engine
described by the repository's design document.  The repository itself is an
instructional notebook exercising a third-party dataframe library, so the
engine (Table / Grouper / Aggregator / WindowEvaluator / GroupFilter) is
modelled here from the design document's words (sections 3-7) and checked
against the concrete input/output pairs recorded in the notebook.
-/

namespace Spec

/-- Equality of `Except` values is decidable when both components' is. -/
instance {ε α : Type} [DecidableEq ε] [DecidableEq α] : DecidableEq (Except ε α) :=
  fun x y =>
    match x, y with
    | .ok a, .ok b =>
      if h : a = b then .isTrue (by rw [h])
      else .isFalse (fun hh => h (by injection hh))
    | .error a, .error b =>
      if h : a = b then .isTrue (by rw [h])
      else .isFalse (fun hh => h (by injection hh))
    | .ok _, .error _ => .isFalse (fun hh => by injection hh)
    | .error _, .ok _ => .isFalse (fun hh => by injection hh)

/-- Modelled from the spec: a cell value is either a string or a numeric
value (section 3: "numeric or string"); numerics are modelled as rationals. -/
inductive Value where
  | str (s : String)
  | num (q : ℚ)
deriving DecidableEq

/-- Modelled from the spec: a GroupKey is a tuple of values, one per grouping
column (section 3). -/
abbrev GroupKey := List Value

/-- Modelled from the spec: a Group is a GroupKey plus the ordered list of row
indices belonging to that key (section 3). -/
structure Group where
  key : GroupKey
  rows : List Nat
deriving DecidableEq

/-- Modelled from the spec: the error taxonomy of section 7. -/
inductive Err where
  | ColumnNotFound
  | InvalidKeyColumn
  | IncomparableType
  | DuplicateOutputName
  | ColumnLengthMismatch
deriving DecidableEq

/-- Modelled from the spec: the named reduction functions of section 4.3. -/
inductive AggFun where
  | sum
  | mean
  | min
  | max
  | count
deriving DecidableEq

/-- Modelled from the spec: a Table is an ordered sequence of named columns
(section 3). -/
structure Table where
  cols : List (String × List Value)
deriving DecidableEq

/-- Lookup of a named column in a column list (first match). -/
def lookupCol (name : String) : List (String × List Value) → Option (List Value)
  | [] => none
  | c :: rest => if c.1 = name then some c.2 else lookupCol name rest

/-- Modelled from the spec: `column(name)` access of section 4.1. -/
def Table.column (t : Table) (name : String) : Option (List Value) :=
  lookupCol name t.cols

/-- Modelled from the spec: `rowCount()` of section 4.1 (all columns share the
row count, so the first column's length is used). -/
def Table.rowCount (t : Table) : Nat :=
  match t.cols with
  | [] => 0
  | c :: _ => c.2.length

/-- Replace the values of a named column, leaving other columns unchanged. -/
def Table.setColumn (t : Table) (name : String) (vals : List Value) : Table :=
  ⟨t.cols.map (fun c => if c.1 = name then (c.1, vals) else c)⟩

/-- GroupKey of each row in order: the key columns' values at that row
(section 4.2 "for each row computes its GroupKey from the key columns'
values at that row"). -/
def rowKeys (t : Table) (keyCols : List String) : List GroupKey :=
  (List.range t.rowCount).map
    (fun i => keyCols.map (fun c => ((t.column c).getD []).getD i (Value.str "")))

/-- Materialized row i of a table: the value of every column at row i. -/
def rowVals (t : Table) : List (List Value) :=
  (List.range t.rowCount).map (fun i => t.cols.map (fun c => c.2.getD i (Value.str "")))

/-- Rows of a table paired with their GroupKey under the given key columns. -/
def tableRows (t : Table) (keyCols : List String) : List (GroupKey × List Value) :=
  (rowKeys t keyCols).zip (rowVals t)

/-- Modelled from the spec: insert a row index under its key into the
accumulating group list; insertion order within a group is row order and a
new key is appended at the end (section 4.2). -/
def insertRow (gs : List Group) (k : GroupKey) (i : Nat) : List Group :=
  match gs with
  | [] => [⟨k, [i]⟩]
  | g :: rest =>
    if g.key = k then ⟨g.key, g.rows ++ [i]⟩ :: rest
    else g :: insertRow rest k i

/-- Fold of section 4.2's scan over the per-row keys, carrying the index of
the next row. -/
def groupFold (ks : List GroupKey) (start : Nat) (gs : List Group) : List Group :=
  match ks with
  | [] => gs
  | k :: rest => groupFold rest (start + 1) (insertRow gs k start)

/-- Modelled from the spec: the Grouper's core on the per-row key list
(section 4.2). -/
def groupByKeys (ks : List GroupKey) : List Group :=
  groupFold ks 0 []

/-- Modelled from the spec: `groupBy(table, keyColumns)` of section 4.2;
fails with `InvalidKeyColumn` if a key column does not exist. -/
def groupBy (t : Table) (keyCols : List String) : Except Err (List Group) :=
  if keyCols.all (fun c => (t.column c).isSome) then
    .ok (groupByKeys (rowKeys t keyCols))
  else .error .InvalidKeyColumn

/-- Numeric view of a value. -/
def Value.asNum : Value → Option ℚ
  | .num q => some q
  | .str _ => none

/-- Numeric view of a column; a non-numeric entry fails with
`IncomparableType` (section 8: "never a silent wrong answer"). -/
def numsOf : List Value → Except Err (List ℚ)
  | [] => .ok []
  | v :: rest =>
    match v.asNum with
    | none => .error .IncomparableType
    | some q =>
      match numsOf rest with
      | .error e => .error e
      | .ok qs => .ok (q :: qs)

/-- Minimum of a list (groups are non-empty, so the default is never hit). -/
def listMin : List ℚ → ℚ
  | [] => 0
  | v :: rest => rest.foldl min v

/-- Maximum of a list (groups are non-empty, so the default is never hit). -/
def listMax : List ℚ → ℚ
  | [] => 0
  | v :: rest => rest.foldl max v

/-- Modelled from the spec: the numeric semantics of the reduction functions
(section 4.3): sum, mean = sum/count, min, max, count = group size. -/
def applyAgg : AggFun → List ℚ → ℚ
  | .sum, l => l.sum
  | .mean, l => l.sum / (l.length : ℚ)
  | .min, l => listMin l
  | .max, l => listMax l
  | .count, l => (l.length : ℚ)

/-- Per-group reduction step of the Aggregator: the group's key together with
the reduction over the column values at the group's row indices. -/
def stepAgg (qs : List ℚ) (f : AggFun) (g : Group) : GroupKey × ℚ :=
  (g.key, applyAgg f (g.rows.map (fun i => qs.getD i 0)))

/-- Modelled from the spec: `aggregate` of section 4.3 for a single
(column, function) pair; output row order is the group order of 4.2. -/
def aggregate (t : Table) (keyCols : List String) (col : String) (f : AggFun) :
    Except Err (List (GroupKey × ℚ)) :=
  match groupBy t keyCols with
  | .error e => .error e
  | .ok gs =>
    match t.column col with
    | none => .error .ColumnNotFound
    | some vs =>
      match numsOf vs with
      | .error e => .error e
      | .ok qs => .ok (gs.map (stepAgg qs f))

/-- Modelled from the spec: the WindowEvaluator's core (section 4.4): the
per-group reduction broadcast back to every original row index, aligned with
the original row order. -/
def transformCore (ks : List GroupKey) (qs : List ℚ) (f : AggFun) : List ℚ :=
  (List.range ks.length).map (fun i =>
    match (groupByKeys ks).find? (fun g => decide (i ∈ g.rows)) with
    | some g => applyAgg f (g.rows.map (fun j => qs.getD j 0))
    | none => 0)

/-- Modelled from the spec: `transform(groups, table, column, function)` of
section 4.4. -/
def transform (t : Table) (keyCols : List String) (col : String) (f : AggFun) :
    Except Err (List ℚ) :=
  match groupBy t keyCols with
  | .error e => .error e
  | .ok _ =>
    match t.column col with
    | none => .error .ColumnNotFound
    | some vs =>
      match numsOf vs with
      | .error e => .error e
      | .ok qs => .ok (transformCore (rowKeys t keyCols) qs f)

/-- Transform applied twice with the same function: the first output column is
written back over the source column and transformed again. -/
def transformTwice (t : Table) (keyCols : List String) (col : String) (f : AggFun) :
    Except Err (List ℚ) :=
  match transform t keyCols col f with
  | .error e => .error e
  | .ok out => transform (t.setColumn col (out.map Value.num)) keyCols col f

/-- Modelled from the spec: `filterGroups(groups, table, predicate)` of
section 4.5; the predicate is evaluated on the per-group reduction of the
named column and the group is retained only if it holds. -/
def filterGroups (t : Table) (keyCols : List String) (col : String) (f : AggFun)
    (pred : ℚ → Bool) : Except Err (List Group) :=
  match groupBy t keyCols with
  | .error e => .error e
  | .ok gs =>
    match t.column col with
    | none => .error .ColumnNotFound
    | some vs =>
      match numsOf vs with
      | .error e => .error e
      | .ok qs => .ok (gs.filter (fun g => pred (applyAgg f (g.rows.map (fun i => qs.getD i 0)))))

/-- Row-level projection of a group filter (section 4.5): the original row
indices, in original order, whose group survived. -/
def rowsSurviving (gs : List Group) (n : Nat) : List Nat :=
  (List.range n).filter (fun i => gs.any (fun g => decide (i ∈ g.rows)))

/-- Modelled from the spec: the number of occurrences of row index `i` across
all groups' row lists; the partition invariant of section 3 says this is
exactly one for every valid row index. -/
def occJoin (gs : List Group) (i : Nat) : Nat :=
  ((gs.map Group.rows).flatten).count i

/-- Modelled from the spec: "order of first appearance of each distinct key"
(section 4.2), written directly from the spec's words as the order-preserving
deduplication of the per-row key list. -/
def firstOccurrences (seen : List GroupKey) : List GroupKey → List GroupKey
  | [] => []
  | k :: rest =>
    if k ∈ seen then firstOccurrences seen rest
    else k :: firstOccurrences (seen ++ [k]) rest

/-- Insert a keyed row payload into a list of materialized groups
(key, member rows); same shape as `insertRow` but carrying row contents. -/
def insertP (gs : List (GroupKey × List (List Value))) (k : GroupKey) (r : List Value) :
    List (GroupKey × List (List Value)) :=
  match gs with
  | [] => [(k, [r])]
  | g :: rest =>
    if g.1 = k then (g.1, g.2 ++ [r]) :: rest
    else g :: insertP rest k r

/-- Fold for `groupPairs`. -/
def groupPairsAux : List (GroupKey × List Value) → List (GroupKey × List (List Value)) →
    List (GroupKey × List (List Value))
  | [], gs => gs
  | (k, r) :: l, gs => groupPairsAux l (insertP gs k r)

/-- Materialized grouping (section 9 `materialize`): groups of row contents
keyed by GroupKey, in first-seen key order with members in row order. -/
def groupPairs (l : List (GroupKey × List Value)) : List (GroupKey × List (List Value)) :=
  groupPairsAux l []

/-- Position-tagging of a list, used to model per-group parallel processing:
each group keeps its sequential position. -/
def tagFrom (s : Nat) : List Group → List (Nat × Group)
  | [] => []
  | g :: rest => (s, g) :: tagFrom (s + 1) rest

/-- Deterministic combine step of section 5: position-tagged per-group results
are placed back in sequential position order. -/
def combineByPos (n : Nat) (rs : List (Nat × (GroupKey × ℚ))) : List (GroupKey × ℚ) :=
  (List.range n).filterMap (fun p => (rs.find? (fun r => decide (r.1 = p))).map Prod.snd)

/-- Modelled from the notebook's final example (cell 65): aggregate the mean of
`valCol` per key as a `mean_value` column, keep the keys whose mean exceeds the
threshold, and join back to the original table on the key column.  The output
columns are the key, the `mean_value`, then every remaining original column. -/
def filterJoin (t : Table) (keyCol valCol : String) (thr : ℚ) : Except Err Table :=
  match aggregate t [keyCol] valCol .mean with
  | .error e => .error e
  | .ok agg =>
    match t.column keyCol with
    | none => .error .ColumnNotFound
    | some kvs =>
      let kept := agg.filter (fun p => decide (thr < p.2))
      let keptRows := (List.range t.rowCount).filterMap (fun i =>
        match kept.find? (fun p => decide (p.1 = [kvs.getD i (Value.str "")])) with
        | some p => some (i, p.2)
        | none => none)
      .ok ⟨(keyCol, keptRows.map (fun r => kvs.getD r.1 (Value.str ""))) ::
           ("mean_value", keptRows.map (fun r => Value.num r.2)) ::
           (t.cols.filter (fun c => !(c.1 = keyCol : Bool))).map
             (fun c => (c.1, keptRows.map (fun r => c.2.getD r.1 (Value.str ""))))⟩

/-- The notebook's example table (cell 7):
key = [A,B,C,A,B,C], data1 = [2,4,6,8,10,12], data2 = [0.1,...,0.6]. -/
def exampleTable : Table :=
  ⟨[("key", [.str "A", .str "B", .str "C", .str "A", .str "B", .str "C"]),
    ("data1", [.num 2, .num 4, .num 6, .num 8, .num 10, .num 12]),
    ("data2", [.num (1/10), .num (2/10), .num (3/10), .num (4/10), .num (5/10), .num (6/10)])]⟩

/-- The groups of the example table under key column "key". -/
def exampleGroups : List Group :=
  [⟨[.str "A"], [0, 3]⟩, ⟨[.str "B"], [1, 4]⟩, ⟨[.str "C"], [2, 5]⟩]

/-- A two-row one-group table used to separate the reductions that are stable
under broadcasting from the ones that are not. -/
def pairTable : Table :=
  ⟨[("key", [.str "A", .str "A"]), ("d", [.num 1, .num 1])]⟩

/-! ### Partition facts about the Grouper -/

theorem occJoin_nil (j : Nat) : occJoin [] j = 0 := rfl

theorem occJoin_cons (g : Group) (gs : List Group) (j : Nat) :
    occJoin (g :: gs) j = g.rows.count j + occJoin gs j := by
  simp [occJoin, List.count_append]

theorem occJoin_insertRow (gs : List Group) (k : GroupKey) (i j : Nat) :
    occJoin (insertRow gs k i) j = occJoin gs j + (if j = i then 1 else 0) := by
  induction gs with
  | nil =>
    by_cases h : j = i <;>
      simp [insertRow, occJoin, List.count_cons, List.count_nil, h, eq_comm]
  | cons g rest ih =>
    by_cases h : g.key = k
    · by_cases hj : j = i
      all_goals
        simp [insertRow, h, occJoin_cons, List.count_append, List.count_cons, hj, eq_comm]
      all_goals omega
    · simp [insertRow, h, occJoin_cons, ih]
      omega

theorem occJoin_groupFold (ks : List GroupKey) (s : Nat) (gs : List Group) (j : Nat) :
    occJoin (groupFold ks s gs) j =
      occJoin gs j + (if s ≤ j ∧ j < s + ks.length then 1 else 0) := by
  induction ks generalizing s gs with
  | nil => simp [groupFold]
  | cons k rest ih =>
    simp only [groupFold, ih, occJoin_insertRow, List.length_cons]
    split_ifs <;> omega

theorem occJoin_groupByKeys (ks : List GroupKey) (j : Nat) :
    occJoin (groupByKeys ks) j = if j < ks.length then 1 else 0 := by
  simp only [groupByKeys, occJoin_groupFold, occJoin_nil, Nat.zero_add, Nat.zero_le, true_and]

theorem one_le_occJoin (gs : List Group) (g : Group) (i : Nat)
    (hg : g ∈ gs) (hi : i ∈ g.rows) : 1 ≤ occJoin gs i := by
  have : i ∈ (gs.map Group.rows).flatten :=
    List.mem_flatten.2 ⟨g.rows, List.mem_map_of_mem Group.rows hg, hi⟩
  have := List.count_pos_iff.2 this
  simpa [occJoin] using this

theorem mem_rows_lt (ks : List GroupKey) (g : Group) (i : Nat)
    (hg : g ∈ groupByKeys ks) (hi : i ∈ g.rows) : i < ks.length := by
  by_contra h
  have h1 := one_le_occJoin (groupByKeys ks) g i hg hi
  rw [occJoin_groupByKeys] at h1
  simp [h] at h1

theorem unique_group (gs : List Group) (i : Nat) (hocc : occJoin gs i = 1)
    (g g' : Group) (hg : g ∈ gs) (hg' : g' ∈ gs)
    (hi : i ∈ g.rows) (hi' : i ∈ g'.rows) : g = g' := by
  induction gs with
  | nil => cases hg
  | cons a rest ih =>
    rw [occJoin_cons] at hocc
    by_cases ha : i ∈ a.rows
    · have h1 : 1 ≤ a.rows.count i := List.count_pos_iff.2 ha
      have hrest : occJoin rest i = 0 := by omega
      have hg2 : g = a := by
        rcases List.mem_cons.1 hg with hg | hg
        · exact hg
        · exact absurd (one_le_occJoin rest g i hg hi) (by omega)
      have hg'2 : g' = a := by
        rcases List.mem_cons.1 hg' with hg' | hg'
        · exact hg'
        · exact absurd (one_le_occJoin rest g' i hg' hi') (by omega)
      rw [hg2, hg'2]
    · have h0 : a.rows.count i = 0 := by
        simpa using List.count_eq_zero.2 ha
      have hg2 : g ∈ rest := by
        rcases List.mem_cons.1 hg with hg | hg
        · exact absurd (hg ▸ hi) ha
        · exact hg
      have hg'2 : g' ∈ rest := by
        rcases List.mem_cons.1 hg' with hg' | hg'
        · exact absurd (hg' ▸ hi') ha
        · exact hg'
      exact ih (by omega) hg2 hg'2

theorem find?_group (gs : List Group) (i : Nat) (hocc : occJoin gs i = 1)
    (g : Group) (hg : g ∈ gs) (hi : i ∈ g.rows) :
    gs.find? (fun g' => decide (i ∈ g'.rows)) = some g := by
  induction gs with
  | nil => cases hg
  | cons a rest ih =>
    by_cases ha : i ∈ a.rows
    · have : g = a := unique_group (a :: rest) i hocc g a hg (by simp) hi ha
      simp [List.find?_cons, ha, this]
    · have h0 : a.rows.count i = 0 := by
        simpa using List.count_eq_zero.2 ha
      rw [occJoin_cons] at hocc
      have hg2 : g ∈ rest := by
        rcases List.mem_cons.1 hg with hg | hg
        · exact absurd (hg ▸ hi) ha
        · exact hg
      simpa [List.find?_cons, ha] using ih (by omega) hg2

theorem exists_group (ks : List GroupKey) (i : Nat) (hi : i < ks.length) :
    ∃ g, g ∈ groupByKeys ks ∧ i ∈ g.rows := by
  have h1 : occJoin (groupByKeys ks) i = 1 := by
    rw [occJoin_groupByKeys]; simp [hi]
  have h2 : 0 < ((groupByKeys ks).map Group.rows).flatten.count i := by
    simp only [occJoin] at h1; omega
  have h3 := List.count_pos_iff.1 h2
  rcases List.mem_flatten.1 h3 with ⟨rows, hrows, hmem⟩
  rcases List.mem_map.1 hrows with ⟨g, hg, rfl⟩
  exact ⟨g, hg, hmem⟩

theorem rows_ne_nil_insertRow (gs : List Group) (k : GroupKey) (i : Nat)
    (h : ∀ g ∈ gs, g.rows ≠ []) : ∀ g ∈ insertRow gs k i, g.rows ≠ [] := by
  induction gs with
  | nil => simp [insertRow]
  | cons a rest ih =>
    intro g hg
    by_cases ha : a.key = k
    · simp only [insertRow, ha, if_pos rfl] at hg
      rcases List.mem_cons.1 hg with hg | hg
      · subst hg; simp
      · exact h g (by simp [hg])
    · simp only [insertRow, ha, if_neg ha] at hg
      rcases List.mem_cons.1 hg with hg | hg
      · subst hg; exact h g (by simp)
      · exact ih (fun g' hg' => h g' (by simp [hg'])) g hg

theorem rows_ne_nil_groupFold (ks : List GroupKey) (s : Nat) (gs : List Group)
    (h : ∀ g ∈ gs, g.rows ≠ []) : ∀ g ∈ groupFold ks s gs, g.rows ≠ [] := by
  induction ks generalizing s gs with
  | nil => simpa [groupFold] using h
  | cons k rest ih =>
    exact ih (s + 1) _ (rows_ne_nil_insertRow gs k s h)

theorem rows_ne_nil (ks : List GroupKey) (g : Group) (hg : g ∈ groupByKeys ks) :
    g.rows ≠ [] :=
  rows_ne_nil_groupFold ks 0 [] (by simp) g hg

/-! ### First-seen key order of the Grouper -/

theorem keys_insertRow (gs : List Group) (k : GroupKey) (i : Nat) :
    (insertRow gs k i).map Group.key =
      if k ∈ gs.map Group.key then gs.map Group.key else gs.map Group.key ++ [k] := by
  induction gs with
  | nil => simp [insertRow]
  | cons g rest ih =>
    by_cases h : g.key = k
    · simp [insertRow, h]
    · have hne : ¬ k = g.key := fun hh => h hh.symm
      simp only [insertRow, if_neg h, List.map_cons, List.mem_cons, hne, false_or, ih]
      by_cases hk : k ∈ rest.map Group.key <;> simp [hk]

theorem keys_groupFold (ks : List GroupKey) (s : Nat) (gs : List Group) :
    (groupFold ks s gs).map Group.key =
      gs.map Group.key ++ firstOccurrences (gs.map Group.key) ks := by
  induction ks generalizing s gs with
  | nil => simp [groupFold, firstOccurrences]
  | cons k rest ih =>
    by_cases h : k ∈ gs.map Group.key
    · simp only [groupFold, ih, keys_insertRow, if_pos h, firstOccurrences, h, if_pos]
    · simp only [groupFold, ih, keys_insertRow, if_neg h, firstOccurrences, h, if_neg,
        List.append_assoc, List.singleton_append, if_false]

theorem keys_groupByKeys (ks : List GroupKey) :
    (groupByKeys ks).map Group.key = firstOccurrences [] ks := by
  simpa [groupByKeys] using keys_groupFold ks 0 []

/-! ### Transform: shape and stability -/

theorem getD_map_range {α : Type} (f : Nat → α) (n j : Nat) (d : α) (hj : j < n) :
    ((List.range n).map f).getD j d = f j := by
  rw [List.getD_eq_getElem _ _ (by simpa using hj)]
  simp

theorem transformCore_length (ks : List GroupKey) (qs : List ℚ) (f : AggFun) :
    (transformCore ks qs f).length = ks.length := by
  simp [transformCore]

theorem transformCore_getD (ks : List GroupKey) (qs : List ℚ) (f : AggFun)
    (i : Nat) (hi : i < ks.length) (g : Group)
    (hfind : (groupByKeys ks).find? (fun g' => decide (i ∈ g'.rows)) = some g) :
    (transformCore ks qs f).getD i 0 = applyAgg f (g.rows.map (fun j => qs.getD j 0)) := by
  rw [transformCore, getD_map_range _ _ _ _ hi]
  simp only [hfind]

theorem foldl_min_replicate (m : Nat) (c : ℚ) : (List.replicate m c).foldl min c = c := by
  induction m with
  | zero => rfl
  | succ m ih => simp [List.replicate_succ, List.foldl_cons, min_self, ih]

theorem foldl_max_replicate (m : Nat) (c : ℚ) : (List.replicate m c).foldl max c = c := by
  induction m with
  | zero => rfl
  | succ m ih => simp [List.replicate_succ, List.foldl_cons, max_self, ih]

theorem listMin_replicate (n : Nat) (hn : n ≠ 0) (c : ℚ) :
    listMin (List.replicate n c) = c := by
  cases n with
  | zero => cases hn rfl
  | succ m => simp [List.replicate_succ, listMin, foldl_min_replicate]

theorem listMax_replicate (n : Nat) (hn : n ≠ 0) (c : ℚ) :
    listMax (List.replicate n c) = c := by
  cases n with
  | zero => cases hn rfl
  | succ m => simp [List.replicate_succ, listMax, foldl_max_replicate]

/-- Stability of the broadcast value under the reduction, for every reduction
other than `sum`: reducing the constant list of the reduced value gives the
reduced value back. -/
theorem applyAgg_replicate (f : AggFun) (hf : f ≠ .sum) (l : List ℚ) (hl : l ≠ []) :
    applyAgg f (List.replicate l.length (applyAgg f l)) = applyAgg f l := by
  have hlen : l.length ≠ 0 := fun h => hl (List.length_eq_zero.1 h)
  cases f with
  | sum => cases hf rfl
  | mean =>
    simp only [applyAgg, List.sum_replicate, List.length_replicate, nsmul_eq_mul]
    rw [mul_div_cancel_left₀]
    exact Nat.cast_ne_zero.2 hlen
  | min => exact listMin_replicate _ hlen _
  | max => exact listMax_replicate _ hlen _
  | count => simp [applyAgg]

/-- Idempotence of the WindowEvaluator core for every reduction other than
`sum`: broadcasting again over the broadcast column changes nothing. -/
theorem transformCore_idem (ks : List GroupKey) (qs : List ℚ) (f : AggFun)
    (hf : f ≠ .sum) :
    transformCore ks (transformCore ks qs f) f = transformCore ks qs f := by
  conv_lhs => rw [transformCore]
  conv_rhs => rw [transformCore]
  apply List.map_congr_left
  intro i hi
  rw [List.mem_range] at hi
  obtain ⟨g, hg, hig⟩ := exists_group ks i hi
  have hocc : occJoin (groupByKeys ks) i = 1 := by
    rw [occJoin_groupByKeys]; simp [hi]
  have hfind := find?_group _ _ hocc g hg hig
  simp only [hfind]
  have hval : ∀ j ∈ g.rows,
      (transformCore ks qs f).getD j 0 =
        applyAgg f (g.rows.map (fun j' => qs.getD j' 0)) := by
    intro j hj
    have hjN : j < ks.length := mem_rows_lt ks g j hg hj
    have hoccj : occJoin (groupByKeys ks) j = 1 := by
      rw [occJoin_groupByKeys]; simp [hjN]
    exact transformCore_getD ks qs f j hjN g (find?_group _ _ hoccj g hg hj)
  rw [List.map_congr_left hval, List.map_const']
  rw [← List.length_map g.rows (fun j' => qs.getD j' 0)]
  exact applyAgg_replicate f hf _
    (fun h => rows_ne_nil ks g hg (List.map_eq_nil_iff.1 h))

/-! ### Table-level plumbing -/

theorem rowKeys_length (t : Table) (K : List String) :
    (rowKeys t K).length = t.rowCount := by
  simp [rowKeys]

theorem groupBy_ok (t : Table) (K : List String) (gs : List Group)
    (h : groupBy t K = .ok gs) :
    gs = groupByKeys (rowKeys t K) ∧ K.all (fun c => (t.column c).isSome) = true := by
  rw [groupBy] at h
  by_cases hg : K.all (fun c => (t.column c).isSome) = true
  · rw [if_pos hg] at h
    exact ⟨(Except.ok.inj h).symm, hg⟩
  · rw [if_neg hg] at h
    exact Except.noConfusion h

theorem transform_ok (t : Table) (K : List String) (col : String) (f : AggFun)
    (out : List ℚ) (h : transform t K col f = .ok out) :
    ∃ vs qs, t.column col = some vs ∧ numsOf vs = .ok qs ∧
      out = transformCore (rowKeys t K) qs f := by
  cases hgb : groupBy t K with
  | error e => simp only [transform, hgb] at h; exact Except.noConfusion h
  | ok gs =>
    cases hc : t.column col with
    | none => simp only [transform, hgb, hc] at h; exact Except.noConfusion h
    | some vs =>
      cases hn : numsOf vs with
      | error e => simp only [transform, hgb, hc, hn] at h; exact Except.noConfusion h
      | ok qs =>
        simp only [transform, hgb, hc, hn] at h
        exact ⟨vs, qs, rfl, hn, (Except.ok.inj h).symm⟩

theorem transform_ok_length (t : Table) (K : List String) (col : String) (f : AggFun)
    (out : List ℚ) (h : transform t K col f = .ok out) : out.length = t.rowCount := by
  obtain ⟨vs, qs, _, _, hout⟩ := transform_ok t K col f out h
  rw [hout, transformCore_length, rowKeys_length]

theorem aggregate_ok_length (t : Table) (K : List String) (col : String) (f : AggFun)
    (gs : List Group) (res : List (GroupKey × ℚ))
    (hgb : groupBy t K = .ok gs) (h : aggregate t K col f = .ok res) :
    res.length = gs.length := by
  cases hc : t.column col with
  | none => simp only [aggregate, hgb, hc] at h; exact Except.noConfusion h
  | some vs =>
    cases hn : numsOf vs with
    | error e => simp only [aggregate, hgb, hc, hn] at h; exact Except.noConfusion h
    | ok qs =>
      simp only [aggregate, hgb, hc, hn] at h
      rw [← Except.ok.inj h, List.length_map]

theorem all_congr_list {α : Type} {xs : List α} {p q : α → Bool}
    (h : ∀ x ∈ xs, p x = q x) : xs.all p = xs.all q := by
  induction xs with
  | nil => rfl
  | cons y ys ih =>
    rw [List.all_cons, List.all_cons, h y (List.mem_cons_self y ys),
      ih (fun x hx => h x (List.mem_cons_of_mem y hx))]

theorem lookupCol_set_ne (cs : List (String × List Value)) (col c : String)
    (vals : List Value) (hne : c ≠ col) :
    lookupCol c (cs.map fun e => if e.1 = col then (e.1, vals) else e) =
      lookupCol c cs := by
  induction cs with
  | nil => rfl
  | cons a rest ih =>
    by_cases h1 : a.1 = col
    · have h2 : ¬ a.1 = c := fun hh => hne (hh ▸ h1)
      simp [List.map_cons, if_pos h1, lookupCol, h2, ih]
    · simp only [List.map_cons, if_neg h1, lookupCol, ih]

theorem column_setColumn_ne (t : Table) (col c : String) (vals : List Value)
    (hne : c ≠ col) : (t.setColumn col vals).column c = t.column c :=
  lookupCol_set_ne t.cols col c vals hne

theorem lookupCol_set_self (cs : List (String × List Value)) (col : String)
    (vals vs : List Value) (h : lookupCol col cs = some vs) :
    lookupCol col (cs.map fun e => if e.1 = col then (e.1, vals) else e) =
      some vals := by
  induction cs with
  | nil => exact Option.noConfusion h
  | cons a rest ih =>
    by_cases h1 : a.1 = col
    · simp [List.map_cons, if_pos h1, lookupCol, h1]
    · simp only [lookupCol, if_neg h1] at h
      simp [List.map_cons, if_neg h1, lookupCol, h1, ih h]

theorem column_setColumn_self (t : Table) (col : String) (vals vs : List Value)
    (h : t.column col = some vs) : (t.setColumn col vals).column col = some vals :=
  lookupCol_set_self t.cols col vals vs h

theorem rowCount_setColumn (t : Table) (col : String) (vals : List Value)
    (h : vals.length = t.rowCount) : (t.setColumn col vals).rowCount = t.rowCount := by
  obtain ⟨cs⟩ := t
  cases cs with
  | nil => rfl
  | cons a rest =>
    by_cases h1 : a.1 = col
    · simp only [Table.setColumn, List.map_cons, if_pos h1, Table.rowCount] at h ⊢
      exact h
    · simp only [Table.setColumn, List.map_cons, if_neg h1, Table.rowCount]

theorem rowKeys_setColumn (t : Table) (K : List String) (col : String)
    (vals : List Value) (hK : col ∉ K) (hlen : vals.length = t.rowCount) :
    rowKeys (t.setColumn col vals) K = rowKeys t K := by
  rw [rowKeys, rowKeys, rowCount_setColumn t col vals hlen]
  apply List.map_congr_left
  intro i _
  apply List.map_congr_left
  intro c hc
  rw [column_setColumn_ne t col c vals (fun hh => hK (hh ▸ hc))]

theorem groupBy_setColumn (t : Table) (K : List String) (col : String)
    (vals : List Value) (hK : col ∉ K) (hlen : vals.length = t.rowCount) :
    groupBy (t.setColumn col vals) K = groupBy t K := by
  rw [groupBy, groupBy, rowKeys_setColumn t K col vals hK hlen,
    all_congr_list (fun c hc => by
      rw [column_setColumn_ne t col c vals (fun hh => hK (hh ▸ hc))])]

theorem numsOf_map_num (qs : List ℚ) : numsOf (qs.map Value.num) = .ok qs := by
  induction qs with
  | nil => rfl
  | cons q rest ih => simp only [List.map_cons, numsOf, Value.asNum, ih]

/-- Table-level idempotence of `transform` for every reduction other than
`sum`, on a non-key column. -/
theorem transformTwice_eq (t : Table) (K : List String) (col : String) (f : AggFun)
    (hf : f ≠ .sum) (hcol : col ∉ K) :
    transformTwice t K col f = transform t K col f := by
  cases h1 : transform t K col f with
  | error e => rw [transformTwice, h1]
  | ok out =>
    rw [transformTwice, h1]
    obtain ⟨vs, qs, hc, hn, hout⟩ := transform_ok t K col f out h1
    have hlen : (out.map Value.num).length = t.rowCount := by
      rw [List.length_map]
      exact transform_ok_length t K col f out h1
    have hgb' := groupBy_setColumn t K col (out.map Value.num) hcol hlen
    have hgb : groupBy t K = .ok (groupByKeys (rowKeys t K)) := by
      cases hg : groupBy t K with
      | error e =>
        simp only [transform, hg] at h1
        exact Except.noConfusion h1
      | ok gs => rw [(groupBy_ok t K gs hg).1]
    simp only [transform, hgb', hgb,
      column_setColumn_self t col (out.map Value.num) vs hc,
      numsOf_map_num,
      rowKeys_setColumn t K col (out.map Value.num) hcol hlen]
    rw [hout, transformCore_idem _ _ _ hf]

/-! ### Filtering commutes with grouping when the predicate only reads keys -/

theorem insertP_filter (gs : List (GroupKey × List (List Value))) (k : GroupKey)
    (r : List Value) (p : GroupKey → Bool) :
    (insertP gs k r).filter (fun x => p x.1) =
      if p k then insertP (gs.filter (fun x => p x.1)) k r
      else gs.filter (fun x => p x.1) := by
  induction gs with
  | nil => by_cases hk : p k <;> simp [insertP, List.filter_cons, hk]
  | cons g rest ih =>
    obtain ⟨k', rs⟩ := g
    by_cases h : k' = k
    · subst h
      by_cases hp : p k' <;> simp [insertP, List.filter_cons, hp]
    · by_cases hp' : p k' <;> by_cases hp : p k <;>
        simp [insertP, List.filter_cons, hp', hp, h, ih]

theorem groupPairsAux_filter (l : List (GroupKey × List Value))
    (gs : List (GroupKey × List (List Value))) (p : GroupKey → Bool) :
    groupPairsAux (l.filter (fun x => p x.1)) (gs.filter (fun x => p x.1)) =
      (groupPairsAux l gs).filter (fun x => p x.1) := by
  induction l generalizing gs with
  | nil => simp [groupPairsAux]
  | cons a l ih =>
    obtain ⟨k, r⟩ := a
    by_cases hp : p k
    · rw [List.filter_cons]
      simp only [hp, if_pos]
      rw [groupPairsAux, groupPairsAux]
      rw [show insertP (gs.filter (fun x => p x.1)) k r =
            (insertP gs k r).filter (fun x => p x.1) by rw [insertP_filter, if_pos hp]]
      exact ih (insertP gs k r)
    · rw [List.filter_cons]
      simp only [hp, Bool.false_eq_true, if_neg, if_false]
      rw [groupPairsAux]
      rw [show gs.filter (fun x => p x.1) =
            (insertP gs k r).filter (fun x => p x.1) by rw [insertP_filter, if_neg]; simp [hp]]
      exact ih (insertP gs k r)

theorem groupPairs_filter (l : List (GroupKey × List Value)) (p : GroupKey → Bool) :
    groupPairs (l.filter (fun x => p x.1)) = (groupPairs l).filter (fun x => p x.1) := by
  have h := groupPairsAux_filter l [] p
  simpa [groupPairs] using h

/-! ### Parallel per-group processing combines to the sequential result -/

theorem map_fst_tagFrom (s : Nat) (l : List Group) :
    (tagFrom s l).map Prod.fst = List.range' s l.length := by
  induction l generalizing s with
  | nil => rfl
  | cons g rest ih => simp [tagFrom, List.range'_succ, ih]

theorem mem_tagFrom (l : List Group) (s i : Nat) (hi : i < l.length) (d : Group) :
    (s + i, l.getD i d) ∈ tagFrom s l := by
  induction l generalizing s i with
  | nil => simp at hi
  | cons g rest ih =>
    cases i with
    | zero => simp [tagFrom]
    | succ m =>
      rw [List.getD_cons_succ, show s + (m + 1) = (s + 1) + m from by omega]
      exact List.mem_cons.2 (Or.inr (ih (s + 1) m (by simpa using hi)))

theorem find?_keyed (l : List (Nat × (GroupKey × ℚ))) (p : Nat) (v : GroupKey × ℚ)
    (hnd : (l.map Prod.fst).Nodup) (hmem : (p, v) ∈ l) :
    l.find? (fun r => decide (r.1 = p)) = some (p, v) := by
  induction l with
  | nil => cases hmem
  | cons a rest ih =>
    rw [List.map_cons, List.nodup_cons] at hnd
    by_cases h : a.1 = p
    · have hav : a = (p, v) := by
        rcases List.mem_cons.1 hmem with h1 | h1
        · exact h1.symm
        · exact absurd (h ▸ List.mem_map.2 ⟨(p, v), h1, rfl⟩) hnd.1
      simp [List.find?_cons, h, hav]
    · have hmem' : (p, v) ∈ rest := by
        rcases List.mem_cons.1 hmem with h1 | h1
        · exact absurd (congrArg Prod.fst h1.symm) h
        · exact h1
      simpa [List.find?_cons, h] using ih hnd.2 hmem'

theorem filterMap_eq_map_aux {α β : Type} (l : List α) (fn : α → Option β)
    (m : α → β) (h : ∀ a ∈ l, fn a = some (m a)) : l.filterMap fn = l.map m := by
  induction l with
  | nil => rfl
  | cons a rest ih =>
    simp [List.filterMap_cons, h a (by simp), ih (fun x hx => h x (by simp [hx]))]

theorem map_range_getD {α β : Type} (l : List α) (f : α → β) (d : α) :
    (List.range l.length).map (fun i => f (l.getD i d)) = l.map f := by
  induction l with
  | nil => rfl
  | cons a rest ih =>
    simp only [List.length_cons, List.range_succ_eq_map, List.map_cons, List.map_map,
      List.getD_cons_zero]
    rw [← ih]
    congr 1

theorem parallel_agg (gs : List Group) (qs : List ℚ) (f : AggFun)
    (sch : List (Nat × Group)) (hperm : sch.Perm (tagFrom 0 gs)) :
    combineByPos gs.length (sch.map (fun r => (r.1, stepAgg qs f r.2))) =
      gs.map (stepAgg qs f) := by
  have hkeys : (sch.map (fun r => (r.1, stepAgg qs f r.2))).map Prod.fst
      = sch.map Prod.fst := by
    simp [List.map_map, Function.comp]
  have hpermf : (sch.map Prod.fst).Perm ((tagFrom 0 gs).map Prod.fst) :=
    hperm.map Prod.fst
  have hnd : ((sch.map (fun r => (r.1, stepAgg qs f r.2))).map Prod.fst).Nodup := by
    rw [hkeys]
    exact hpermf.nodup_iff.2 (by rw [map_fst_tagFrom]; exact List.nodup_range' 0 _)
  have hfind : ∀ p ∈ List.range gs.length,
      ((sch.map (fun r => (r.1, stepAgg qs f r.2))).find?
          (fun r => decide (r.1 = p))).map Prod.snd =
        some (stepAgg qs f (gs.getD p ⟨[], []⟩)) := by
    intro p hp
    rw [List.mem_range] at hp
    have h1 : (p, gs.getD p ⟨[], []⟩) ∈ tagFrom 0 gs := by
      simpa using mem_tagFrom gs 0 p hp ⟨[], []⟩
    have h2 : (p, stepAgg qs f (gs.getD p ⟨[], []⟩)) ∈
        (tagFrom 0 gs).map (fun r => (r.1, stepAgg qs f r.2)) :=
      List.mem_map.2 ⟨(p, gs.getD p ⟨[], []⟩), h1, rfl⟩
    have h3 := (hperm.map (fun r => (r.1, stepAgg qs f r.2))).mem_iff.2 h2
    rw [find?_keyed _ p _ hnd h3]
    rfl
  rw [combineByPos, filterMap_eq_map_aux _ _ _ hfind, map_range_getD]

/-! ### GroupFilter: success shape, errors, and agreement of the projections -/

theorem filterGroups_ok (t : Table) (K : List String) (col : String) (f : AggFun)
    (pred : ℚ → Bool) (gs : List Group) (vs : List Value) (qs : List ℚ)
    (hgb : groupBy t K = .ok gs) (hc : t.column col = some vs)
    (hn : numsOf vs = .ok qs) :
    filterGroups t K col f pred =
      .ok (gs.filter (fun g => pred (applyAgg f (g.rows.map (fun i => qs.getD i 0))))) := by
  simp only [filterGroups, hgb, hc, hn]

theorem filterGroups_colMissing (t : Table) (K : List String) (col : String)
    (f : AggFun) (pred : ℚ → Bool) (gs : List Group)
    (hgb : groupBy t K = .ok gs) (hc : t.column col = none) :
    filterGroups t K col f pred = .error .ColumnNotFound := by
  simp only [filterGroups, hgb, hc]

theorem filterGroups_empty (t : Table) (K : List String) (col : String) (f : AggFun)
    (pred : ℚ → Bool) (gs : List Group) (vs : List Value) (qs : List ℚ)
    (hgb : groupBy t K = .ok gs) (hc : t.column col = some vs)
    (hn : numsOf vs = .ok qs)
    (hnone : ∀ g ∈ gs, pred (applyAgg f (g.rows.map (fun j => qs.getD j 0))) = false) :
    filterGroups t K col f pred = .ok [] := by
  rw [filterGroups_ok t K col f pred gs vs qs hgb hc hn]
  congr 1
  rw [List.filter_eq_nil_iff]
  intro g hg
  simp only [Bool.not_eq_true]
  simpa [List.getD_eq_getElem?_getD] using hnone g hg

theorem rowsSurviving_agree (t : Table) (K : List String) (col : String) (f : AggFun)
    (pred : ℚ → Bool) (gs kept : List Group) (vs : List Value) (qs : List ℚ)
    (hgb : groupBy t K = .ok gs) (hc : t.column col = some vs)
    (hn : numsOf vs = .ok qs) (hkept : filterGroups t K col f pred = .ok kept)
    (g : Group) (hg : g ∈ gs) (i : Nat) (hi : i ∈ g.rows) :
    i ∈ rowsSurviving kept t.rowCount ↔
      pred (applyAgg f (g.rows.map (fun j => qs.getD j 0))) = true := by
  have hkeq : kept =
      gs.filter (fun g' => pred (applyAgg f (g'.rows.map (fun j => qs.getD j 0)))) := by
    rw [filterGroups_ok t K col f pred gs vs qs hgb hc hn] at hkept
    exact (Except.ok.inj hkept).symm
  obtain ⟨hgs, -⟩ := groupBy_ok t K gs hgb
  have hiN : i < t.rowCount := by
    have hlt := mem_rows_lt (rowKeys t K) g i (hgs ▸ hg) hi
    rwa [rowKeys_length] at hlt
  have hocc : occJoin gs i = 1 := by
    rw [hgs, occJoin_groupByKeys, rowKeys_length]
    simp [hiN]
  constructor
  · intro hmem
    rw [rowsSurviving, List.mem_filter, List.any_eq_true] at hmem
    obtain ⟨-, g', hg', hig'⟩ := hmem
    rw [hkeq, List.mem_filter] at hg'
    have heq : g = g' :=
      unique_group gs i hocc g g' hg hg'.1 hi (of_decide_eq_true hig')
    rw [heq]
    exact hg'.2
  · intro hpred
    rw [rowsSurviving, List.mem_filter, List.any_eq_true]
    refine ⟨List.mem_range.2 hiN, g, ?_, decide_eq_true hi⟩
    rw [hkeq, List.mem_filter]
    exact ⟨hg, hpred⟩

/-! ### Claims -/

/-- C1: for every per-row key sequence, the groups returned by the Grouper are
ordered by the first appearance of each distinct key in input row order
(stable, not sorted); in particular grouping the example table by "key"
yields the groups in the order A, B, C. -/
theorem C1_group_order_first_seen :
    (∀ ks : List GroupKey, (groupByKeys ks).map Group.key = firstOccurrences [] ks) ∧
    (groupBy exampleTable ["key"]).map (fun gs => gs.map Group.key) =
      .ok [[Value.str "A"], [Value.str "B"], [Value.str "C"]] :=
  ⟨keys_groupByKeys, by decide⟩

/-- C2: on the example table, aggregating the sum of data1 per key yields
A ↦ 10, B ↦ 14, C ↦ 18, and transforming the mean of data1 yields the
length-6 sequence [5,7,9,5,7,9] aligned to the original row order. -/
theorem C2_example_sums_and_means :
    aggregate exampleTable ["key"] "data1" .sum =
      .ok [([Value.str "A"], 10), ([Value.str "B"], 14), ([Value.str "C"], 18)] ∧
    transform exampleTable ["key"] "data1" .mean = .ok [5, 7, 9, 5, 7, 9] :=
  ⟨by with_unfolding_all decide, by with_unfolding_all decide⟩

/-- C3: for every table and key-column set on which `groupBy` succeeds, the
returned groups partition the row indices exactly: every index below the row
count occurs exactly once across all groups' row lists, and no other index
occurs. -/
theorem C3_groups_partition_rows (t : Table) (K : List String) (gs : List Group)
    (h : groupBy t K = .ok gs) (j : Nat) :
    occJoin gs j = if j < t.rowCount then 1 else 0 := by
  rw [(groupBy_ok t K gs h).1, occJoin_groupByKeys, rowKeys_length]

/-- Witness for C3 at the example table and row index 3. -/
theorem C3_groups_partition_rows_witness :
    occJoin exampleGroups 3 = if 3 < exampleTable.rowCount then 1 else 0 :=
  C3_groups_partition_rows exampleTable ["key"] exampleGroups (by decide) 3

/-- C4: per-group reductions may be processed in any order (any permutation of
the position-tagged groups); combining the tagged results back by position
always yields exactly the single-threaded Aggregator output, so the final
ordering is deterministic and independent of execution schedule. -/
theorem C4_schedule_independent (gs : List Group) (qs : List ℚ) (f : AggFun)
    (sch : List (Nat × Group)) (hperm : sch.Perm (tagFrom 0 gs)) :
    combineByPos gs.length (sch.map (fun r => (r.1, stepAgg qs f r.2))) =
      gs.map (stepAgg qs f) :=
  parallel_agg gs qs f sch hperm

/-- Witness for C4: the example's three groups processed in the order C, A, B
still combine to the sequential sum aggregation. -/
theorem C4_schedule_independent_witness :
    combineByPos exampleGroups.length
        ([((2 : Nat), (⟨[Value.str "C"], [2, 5]⟩ : Group)),
          (0, ⟨[Value.str "A"], [0, 3]⟩), (1, ⟨[Value.str "B"], [1, 4]⟩)].map
          (fun r => (r.1, stepAgg [2, 4, 6, 8, 10, 12] .sum r.2))) =
      exampleGroups.map (stepAgg [2, 4, 6, 8, 10, 12] .sum) :=
  C4_schedule_independent exampleGroups [2, 4, 6, 8, 10, 12] .sum _ (by decide)

/-- C5: whenever they succeed, `aggregate` returns exactly one row per group
and `transform` returns exactly `rowCount` values. -/
theorem C5_output_shapes :
    (∀ (t : Table) (K : List String) (col : String) (f : AggFun) (gs : List Group)
        (res : List (GroupKey × ℚ)), groupBy t K = .ok gs →
        aggregate t K col f = .ok res → res.length = gs.length) ∧
    (∀ (t : Table) (K : List String) (col : String) (f : AggFun) (out : List ℚ),
        transform t K col f = .ok out → out.length = t.rowCount) :=
  ⟨aggregate_ok_length, transform_ok_length⟩

/-- Witness for C5 at the example table. -/
theorem C5_output_shapes_witness :
    ([([Value.str "A"], (10 : ℚ)), ([Value.str "B"], 14), ([Value.str "C"], 18)].length =
      exampleGroups.length) ∧
    ([(5 : ℚ), 7, 9, 5, 7, 9].length = exampleTable.rowCount) :=
  ⟨C5_output_shapes.1 exampleTable ["key"] "data1" .sum exampleGroups _ (by decide)
      (by with_unfolding_all decide),
    C5_output_shapes.2 exampleTable ["key"] "data1" .mean _ (by with_unfolding_all decide)⟩

/-- C6: filtering the example table's groups on mean(data2) > 0.3 retains
exactly the groups B and C; the row-level projection is exactly the four
original rows 1, 2, 4, 5 (the rows whose key is B or C); and in general a row
survives the row-level projection exactly when its group passes the
predicate, so the two projections always agree. -/
theorem C6_group_filter_agreement :
    filterGroups exampleTable ["key"] "data2" .mean (fun q => decide ((3 : ℚ)/10 < q)) =
      .ok [⟨[.str "B"], [1, 4]⟩, ⟨[.str "C"], [2, 5]⟩] ∧
    rowsSurviving [⟨[.str "B"], [1, 4]⟩, ⟨[.str "C"], [2, 5]⟩] exampleTable.rowCount =
      [1, 2, 4, 5] ∧
    (∀ (t : Table) (K : List String) (col : String) (f : AggFun) (pred : ℚ → Bool)
        (gs kept : List Group) (vs : List Value) (qs : List ℚ),
      groupBy t K = .ok gs → t.column col = some vs → numsOf vs = .ok qs →
      filterGroups t K col f pred = .ok kept →
      ∀ g ∈ gs, ∀ i ∈ g.rows,
        (i ∈ rowsSurviving kept t.rowCount ↔
          pred (applyAgg f (g.rows.map (fun j => qs.getD j 0))) = true)) :=
  ⟨by with_unfolding_all decide, by decide,
    fun t K col f pred gs kept vs qs hgb hc hn hkept g hg i hi =>
      rowsSurviving_agree t K col f pred gs kept vs qs hgb hc hn hkept g hg i hi⟩

/-- Witness for C6's agreement clause at the example table, group B, row 1. -/
theorem C6_group_filter_agreement_witness :
    1 ∈ rowsSurviving [⟨[.str "B"], [1, 4]⟩, ⟨[.str "C"], [2, 5]⟩]
        exampleTable.rowCount ↔
      (fun q => decide ((3 : ℚ)/10 < q))
          (applyAgg .mean ([1, 4].map
            (fun j => [(1 : ℚ)/10, 2/10, 3/10, 4/10, 5/10, 6/10].getD j 0))) = true :=
  C6_group_filter_agreement.2.2 exampleTable ["key"] "data2" .mean
    (fun q => decide ((3 : ℚ)/10 < q)) exampleGroups
    [⟨[.str "B"], [1, 4]⟩, ⟨[.str "C"], [2, 5]⟩]
    [.num (1/10), .num (2/10), .num (3/10), .num (4/10), .num (5/10), .num (6/10)]
    [(1 : ℚ)/10, 2/10, 3/10, 4/10, 5/10, 6/10]
    (by decide) (by with_unfolding_all decide) (by with_unfolding_all decide)
    (by with_unfolding_all decide) ⟨[.str "B"], [1, 4]⟩ (by decide) 1 (by decide)

/-- C7: for every keyed row list and every predicate over the key only,
filtering the rows and then grouping produces the same materialized groups
(same keys, same member rows, same order) as grouping first and then
discarding the groups whose key fails the predicate; on the example table
with the predicate key ≠ A both sides are the B and C groups of cells 12/13. -/
theorem C7_filter_before_or_after_grouping :
    (∀ (l : List (GroupKey × List Value)) (p : GroupKey → Bool),
      groupPairs (l.filter (fun x => p x.1)) = (groupPairs l).filter (fun x => p x.1)) ∧
    groupPairs ((tableRows exampleTable ["key"]).filter
        (fun x => decide (x.1 ≠ [Value.str "A"]))) =
      [([.str "B"], [[.str "B", .num 4, .num (2/10)], [.str "B", .num 10, .num (5/10)]]),
       ([.str "C"], [[.str "C", .num 6, .num (3/10)], [.str "C", .num 12, .num (6/10)]])] ∧
    (groupPairs (tableRows exampleTable ["key"])).filter
        (fun x => decide (x.1 ≠ [Value.str "A"])) =
      [([.str "B"], [[.str "B", .num 4, .num (2/10)], [.str "B", .num 10, .num (5/10)]]),
       ([.str "C"], [[.str "C", .num 6, .num (3/10)], [.str "C", .num 12, .num (6/10)]])] :=
  ⟨groupPairs_filter, by with_unfolding_all decide, by with_unfolding_all decide⟩

/-- C8 (counterexample): `transform` is not idempotent as stated for every
reduction function: with `sum` on a two-row single-group table the first
transform yields [2,2] and the second [4,4]. -/
theorem C8_sum_transform_not_idempotent :
    transformTwice pairTable ["key"] "d" .sum ≠ transform pairTable ["key"] "d" .sum := by
  with_unfolding_all decide

/-- C8 (amended): `transform` on a non-key column is idempotent for every
reduction function other than `sum` (mean, min, max, count), because for
those the broadcast per-group value is stable under the reduction; for `sum`
it is not. -/
theorem C8_transform_idempotent_amended (t : Table) (K : List String) (col : String)
    (f : AggFun) (hf : f ≠ .sum) (hcol : col ∉ K) :
    transformTwice t K col f = transform t K col f :=
  transformTwice_eq t K col f hf hcol

/-- Witness for the amended C8 at the example table with the mean. -/
theorem C8_transform_idempotent_amended_witness :
    transformTwice exampleTable ["key"] "data1" .mean =
      transform exampleTable ["key"] "data1" .mean :=
  C8_transform_idempotent_amended exampleTable ["key"] "data1" .mean
    (by decide) (by decide)

/-- C9: `filterGroups` fails with `ColumnNotFound` when the predicate's column
is absent (the key columns being valid); when no group satisfies the
predicate it returns an empty result rather than an error; and every call
either fails as a whole with an error or returns a complete result, never a
partial one. -/
theorem C9_filter_error_handling :
    (∀ (t : Table) (K : List String) (col : String) (f : AggFun) (pred : ℚ → Bool)
        (gs : List Group), groupBy t K = .ok gs → t.column col = none →
      filterGroups t K col f pred = .error .ColumnNotFound) ∧
    (∀ (t : Table) (K : List String) (col : String) (f : AggFun) (pred : ℚ → Bool)
        (gs : List Group) (vs : List Value) (qs : List ℚ),
      groupBy t K = .ok gs → t.column col = some vs → numsOf vs = .ok qs →
      (∀ g ∈ gs, pred (applyAgg f (g.rows.map (fun j => qs.getD j 0))) = false) →
      filterGroups t K col f pred = .ok []) ∧
    (∀ (t : Table) (K : List String) (col : String) (f : AggFun) (pred : ℚ → Bool),
      (∃ e, filterGroups t K col f pred = .error e) ∨
      (∃ r, filterGroups t K col f pred = .ok r)) := by
  refine ⟨filterGroups_colMissing, filterGroups_empty, ?_⟩
  intro t K col f pred
  cases h : filterGroups t K col f pred with
  | error e => exact Or.inl ⟨e, rfl⟩
  | ok r => exact Or.inr ⟨r, rfl⟩

/-- Witness for C9: a missing predicate column errors, and a predicate no
group satisfies yields the empty result. -/
theorem C9_filter_error_handling_witness :
    filterGroups exampleTable ["key"] "nothere" .mean (fun q => decide ((0 : ℚ) < q)) =
      .error .ColumnNotFound ∧
    filterGroups exampleTable ["key"] "data2" .mean (fun q => decide ((100 : ℚ) < q)) =
      .ok [] :=
  ⟨C9_filter_error_handling.1 exampleTable ["key"] "nothere" .mean
      (fun q => decide ((0 : ℚ) < q)) exampleGroups (by decide) (by decide),
    C9_filter_error_handling.2.1 exampleTable ["key"] "data2" .mean
      (fun q => decide ((100 : ℚ) < q)) exampleGroups
      [.num (1/10), .num (2/10), .num (3/10), .num (4/10), .num (5/10), .num (6/10)]
      [(1 : ℚ)/10, 2/10, 3/10, 4/10, 5/10, 6/10]
      (by decide) (by with_unfolding_all decide) (by with_unfolding_all decide)
      (by with_unfolding_all decide)⟩

/-- C10: the implemented row projection of the group filter (aggregate the
per-key mean of data2 as mean_value, keep means above 0.3, join back to the
original table on the key) returns each of the four surviving rows with its
original three columns unchanged plus the added mean_value column holding the
group's reduced value, four columns in all. -/
theorem C10_filter_join_columns :
    filterJoin exampleTable "key" "data2" (3/10) =
      .ok ⟨[("key", [.str "B", .str "C", .str "B", .str "C"]),
            ("mean_value", [.num (35/100), .num (45/100), .num (35/100), .num (45/100)]),
            ("data1", [.num 4, .num 6, .num 10, .num 12]),
            ("data2", [.num (2/10), .num (3/10), .num (5/10), .num (6/10)])]⟩ ∧
    (filterJoin exampleTable "key" "data2" (3/10)).map (fun r => r.cols.length) =
      .ok 4 :=
  ⟨by with_unfolding_all decide, by with_unfolding_all decide⟩

end Spec
